import Mathlib

/-!
Verification of the room-scoped WebSocket relay server.

The development shallowly embeds the repository's TypeScript sources:

* `RoomManager` (src/unnamed/part_001): room registry with membership and
  bounded history.  JavaScript `Map`s are modelled as insertion-ordered
  association lists (`Map.set` on an existing key updates the value in
  place, otherwise appends; `Map.delete` removes the entry; iteration is
  in insertion order).  Operations that `throw` are modelled in
  `Except String`, with the thrown message as the error value.
* `SocketManager` (src/src/socketManager.ts and the later revisions
  embedded in src/src/logger.ts).  The proofs below target the latest
  revision (the async variant with `sendWithRetry`, logger.ts lines
  537-1111); where a claim depends on an earlier revision this is stated
  at the theorem.  Transport sends are modelled at the granularity of a
  nominal send pass: a payload is emitted iff the target transport is
  OPEN (both the call-site `readyState` guards and the first pass of
  `sendWithRetry` check exactly this); the internal retry mechanics of
  `sendWithRetry` are modelled separately (`sendWithRetryModel`).

JSON values are modelled by the inductive `Json`; JavaScript truthiness
of a parsed JSON value is `Json.falsy`.  Room and client identifiers are
modelled as strings, following the TypeScript signatures
(`roomId: string`, `clientId: string`); an absent object field reads as
`none`.
-/

/-- JSON values, as produced by `JSON.parse` on a text frame. -/
inductive Json where
  | null : Json
  | bool (b : Bool) : Json
  | num (n : Int) : Json
  | str (s : String) : Json
  | arr (xs : List Json) : Json
  | obj (fields : List (String × Json)) : Json

/-- JavaScript truthiness of a parsed JSON value: `null`, `false`, `0`
and the empty string are falsy; arrays and objects are always truthy. -/
def Json.falsy : Json → Bool
  | .null => true
  | .bool b => !b
  | .num n => n == 0
  | .str s => s == ""
  | .arr _ => false
  | .obj _ => false

/-- First binding of a key in a JSON-object field list. -/
def lookupField : List (String × Json) → String → Option Json
  | [], _ => none
  | (k, v) :: rest, key => if k = key then some v else lookupField rest key

/-- Property access `m.k` on a parsed JSON value: a field of an object,
`undefined` (modelled as `none`) otherwise. -/
def Json.getField : Json → String → Option Json
  | .obj fs, k => lookupField fs k
  | _, _ => none

/-- Whether property `k` is present on the value. -/
def Json.hasField (m : Json) (k : String) : Bool :=
  match m.getField k with
  | some _ => true
  | none => false

/-- `m.type === s` for a string literal `s` (strict equality, so only a
string field can match). -/
def Json.isType (m : Json) (s : String) : Bool :=
  match m.getField "type" with
  | some (.str t) => t = s
  | _ => false

/-! ### Insertion-ordered association lists (JavaScript `Map`) -/

/-- `Map.get`: first binding of the key. -/
def alookup {α : Type} : List (String × α) → String → Option α
  | [], _ => none
  | (k, v) :: rest, key => if k = key then some v else alookup rest key

/-- `Map.set`: update the first binding in place, else append. -/
def aset {α : Type} : List (String × α) → String → α → List (String × α)
  | [], key, v => [(key, v)]
  | (k, w) :: rest, key, v =>
      if k = key then (key, v) :: rest else (k, w) :: aset rest key v

/-- `Map.delete`: remove the binding of the key. -/
def aerase {α : Type} : List (String × α) → String → List (String × α)
  | [], _ => []
  | (k, v) :: rest, key => if k = key then aerase rest key else (k, v) :: aerase rest key

theorem alookup_aset_self {α : Type} (l : List (String × α)) (k : String) (v : α) :
    alookup (aset l k v) k = some v := by
  induction l with
  | nil => simp [aset, alookup]
  | cons p rest ih =>
      obtain ⟨k', w⟩ := p
      by_cases h : k' = k
      · simp [aset, h, alookup]
      · simp [aset, h, alookup, ih]

theorem alookup_aset_ne {α : Type} (l : List (String × α)) (k k' : String) (v : α)
    (h : k' ≠ k) : alookup (aset l k v) k' = alookup l k' := by
  induction l with
  | nil => simp [aset, alookup, Ne.symm h]
  | cons p rest ih =>
      obtain ⟨k₀, w⟩ := p
      by_cases h0 : k₀ = k
      · subst h0
        simp [aset, alookup, Ne.symm h]
      · by_cases h1 : k₀ = k'
        · simp [aset, h0, alookup, h1, h]
        · simp [aset, h0, alookup, h1, ih]

theorem alookup_aerase_self {α : Type} (l : List (String × α)) (k : String) :
    alookup (aerase l k) k = none := by
  induction l with
  | nil => simp [aerase, alookup]
  | cons p rest ih =>
      obtain ⟨k', v⟩ := p
      by_cases h : k' = k
      · simpa [aerase, h, alookup] using ih
      · simpa [aerase, h, alookup] using ih

theorem alookup_aerase_ne {α : Type} (l : List (String × α)) (k k' : String)
    (h : k' ≠ k) : alookup (aerase l k) k' = alookup l k' := by
  induction l with
  | nil => simp [aerase, alookup]
  | cons p rest ih =>
      obtain ⟨k₀, v⟩ := p
      by_cases h0 : k₀ = k
      · subst h0
        simpa [aerase, alookup, Ne.symm h] using ih
      · by_cases h1 : k₀ = k'
        · simp [aerase, alookup, h0, h1, h]
        · simpa [aerase, alookup, h0, h1] using ih

theorem aerase_of_alookup_none {α : Type} (l : List (String × α)) (k : String)
    (h : alookup l k = none) : aerase l k = l := by
  induction l with
  | nil => simp [aerase]
  | cons p rest ih =>
      obtain ⟨k₀, v⟩ := p
      by_cases h0 : k₀ = k
      · simp [alookup, h0] at h
      · simp [alookup, h0] at h
        simp [aerase, h0, ih h]

theorem mem_aerase {α : Type} (l : List (String × α)) (k : String)
    (p : String × α) (hp : p ∈ aerase l k) : p ∈ l := by
  induction l with
  | nil => simp [aerase] at hp
  | cons q rest ih =>
      obtain ⟨k₀, w⟩ := q
      by_cases h0 : k₀ = k
      · simp [aerase, h0] at hp
        exact List.mem_cons_of_mem _ (ih hp)
      · simp [aerase, h0] at hp
        rcases hp with h | h
        · simp [h]
        · exact List.mem_cons_of_mem _ (ih h)

theorem mem_aset {α : Type} (l : List (String × α)) (k : String) (v : α)
    (p : String × α) (hp : p ∈ aset l k v) : p ∈ l ∨ p = (k, v) := by
  induction l with
  | nil =>
      simp [aset] at hp
      simp [hp]
  | cons q rest ih =>
      obtain ⟨k₀, w⟩ := q
      by_cases h0 : k₀ = k
      · simp [aset, h0] at hp
        rcases hp with h | h
        · right; simp [h]
        · left; simp [h]
      · simp [aset, h0] at hp
        rcases hp with h | h
        · left; simp [h]
        · rcases ih h with h' | h'
          · left; simp [h']
          · right; exact h'

/-! ### Room registry (`RoomManager`, src/unnamed/part_001) -/

/-- A room: identifier, member map (`clientId => clientId`), bounded
event history. -/
structure Room where
  id : String
  clients : List String
  history : List Json

/-- The registry state: `rooms: Map<string, Room>`. -/
abbrev RMState := List (String × Room)

/-- Membership list of a room, empty when the room is absent
(observation helper used by the theorems). -/
def membersOfD (rm : RMState) (roomId : String) : List String :=
  match alookup rm roomId with
  | some room => room.clients
  | none => []

/-- History of a room, empty when the room is absent (observation
helper used by the theorems). -/
def historyOfD (rm : RMState) (roomId : String) : List Json :=
  match alookup rm roomId with
  | some room => room.history
  | none => []

/-- `RoomManager.createRoom`: throws on an empty id; returns an
existing room unchanged, otherwise inserts a fresh empty room. -/
def createRoom (rm : RMState) (roomId : String) : Except String (Room × RMState) :=
  if roomId = "" then .error "roomId is required"
  else
    match alookup rm roomId with
    | some room => .ok (room, rm)
    | none =>
        let room : Room := { id := roomId, clients := [], history := [] }
        .ok (room, rm ++ [(roomId, room)])

/-- `RoomManager.deleteRoom`. -/
def deleteRoom (rm : RMState) (roomId : String) : Except String RMState :=
  if roomId = "" then .error "roomId is required"
  else .ok (aerase rm roomId)

/-- `Map.set(clientId, clientId)` on a member map: no-op when already
present (the value equals the key), else append. -/
def addClientKey (cs : List String) (clientId : String) : List String :=
  if clientId ∈ cs then cs else cs ++ [clientId]

/-- `RoomManager.addClientToRoom`: guard, create-if-absent, insert the
member. -/
def addClientToRoom (rm : RMState) (roomId clientId : String) : Except String RMState :=
  if roomId = "" ∨ clientId = "" then .error "roomId and clientId are required"
  else
    match createRoom rm roomId with
    | .error e => .error e
    | .ok (room, rm₁) =>
        .ok (aset rm₁ roomId { room with clients := addClientKey room.clients clientId })

/-- `RoomManager.removeClientFromRoom`: guard, no-op when the room or
the membership is absent, delete the room when it becomes empty. -/
def removeClientFromRoom (rm : RMState) (roomId clientId : String) : Except String RMState :=
  if roomId = "" ∨ clientId = "" then .error "roomId and clientId are required"
  else
    match alookup rm roomId with
    | none => .ok rm
    | some room =>
        if clientId ∈ room.clients then
          if room.clients.filter (fun c => c ≠ clientId) = [] then .ok (aerase rm roomId)
          else .ok (aset rm roomId
            { room with clients := room.clients.filter (fun c => c ≠ clientId) })
        else .ok rm

/-- `RoomManager.getClientsInRoom`. -/
def getClientsInRoom (rm : RMState) (roomId : String) : Except String (List String) :=
  if roomId = "" then .error "roomId is required"
  else
    match alookup rm roomId with
    | none => .ok []
    | some room => .ok room.clients

/-- `RoomManager.getRoomUserCount`. -/
def getRoomUserCount (rm : RMState) (roomId : String) : Except String Nat :=
  if roomId = "" then .error "roomId is required"
  else
    match alookup rm roomId with
    | none => .ok 0
    | some room => .ok room.clients.length

/-- `RoomManager.getRoomById`. -/
def getRoomById (rm : RMState) (roomId : String) : Except String (Option Room) :=
  if roomId = "" then .error "roomId is required"
  else .ok (alookup rm roomId)

/-- One push onto a room history: append, then `shift()` once the
length exceeds 100. -/
def pushCap (h : List Json) (m : Json) : List Json :=
  if 100 < (h ++ [m]).length then (h ++ [m]).drop 1 else h ++ [m]

/-- `RoomManager.addMessageToHistory`: guard (empty id or falsy
message throws), no-op when the room is absent. -/
def addMessageToHistory (rm : RMState) (roomId : String) (m : Json) : Except String RMState :=
  if roomId = "" ∨ m.falsy then .error "roomId and message are required"
  else
    match alookup rm roomId with
    | none => .ok rm
    | some room => .ok (aset rm roomId { room with history := pushCap room.history m })

/-- `RoomManager.getRoomHistory`. -/
def getRoomHistory (rm : RMState) (roomId : String) : Except String (List Json) :=
  if roomId = "" then .error "roomId is required"
  else
    match alookup rm roomId with
    | none => .ok []
    | some room => .ok room.history

/-- `RoomManager.getRoomsByClientId`: all rooms whose member map
contains the client, in registry insertion order. -/
def getRoomsByClientId (rm : RMState) (clientId : String) : Except String (List String) :=
  if clientId = "" then .error "clientId is required"
  else .ok (rm.filterMap (fun p => if clientId ∈ p.2.clients then some p.1 else none))

/-! ### Claim C10: registry operations reject empty identifiers -/

/-- C10: every Room Registry operation (addClientToRoom,
removeClientFromRoom, getClientsInRoom, getRoomUserCount,
getRoomHistory, getRoomsByClientId, addMessageToHistory) throws
synchronously on an empty-string roomId or clientId, with the message
thrown by the source, instead of treating the empty id as an absent
room or client. -/
theorem registryOps_throw_on_empty_id :
    ∀ (rm : RMState) (r c : String) (m : Json),
      addClientToRoom rm "" c = .error "roomId and clientId are required"
      ∧ addClientToRoom rm r "" = .error "roomId and clientId are required"
      ∧ removeClientFromRoom rm "" c = .error "roomId and clientId are required"
      ∧ removeClientFromRoom rm r "" = .error "roomId and clientId are required"
      ∧ getClientsInRoom rm "" = .error "roomId is required"
      ∧ getRoomUserCount rm "" = .error "roomId is required"
      ∧ getRoomHistory rm "" = .error "roomId is required"
      ∧ getRoomsByClientId rm "" = .error "clientId is required"
      ∧ addMessageToHistory rm "" m = .error "roomId and message are required" := by
  intro rm r c m
  refine ⟨?_, ?_, ?_, ?_, ?_, ?_, ?_, ?_, ?_⟩ <;>
    simp [addClientToRoom, removeClientFromRoom, getClientsInRoom, getRoomUserCount,
      getRoomHistory, getRoomsByClientId, addMessageToHistory]

/-! ### Claim C3: bounded FIFO history -/

/-- A sequence of `addMessageToHistory` calls on the same room,
propagating a thrown error. -/
def appendAll (rm : RMState) (r : String) : List Json → Except String RMState
  | [] => .ok rm
  | e :: rest =>
      match addMessageToHistory rm r e with
      | .error err => .error err
      | .ok rm' => appendAll rm' r rest

theorem pushCap_eq (h : List Json) (m : Json) (hle : h.length ≤ 100) :
    pushCap h m = (h ++ [m]).drop (h.length + 1 - 100) := by
  by_cases hc : 100 < (h ++ [m]).length
  · rw [pushCap, if_pos hc]
    congr 1
    simp only [List.length_append, List.length_cons, List.length_nil] at hc
    omega
  · rw [pushCap, if_neg hc]
    simp only [List.length_append, List.length_cons, List.length_nil] at hc
    have h0 : h.length + 1 - 100 = 0 := by omega
    rw [h0, List.drop_zero]

theorem foldl_pushCap_eq :
    ∀ (es : List Json) (h : List Json), h.length ≤ 100 →
      List.foldl pushCap h es = (h ++ es).drop (h.length + es.length - 100) := by
  intro es
  induction es with
  | nil =>
      intro h hle
      simp only [List.foldl_nil, List.append_nil, List.length_nil, Nat.add_zero]
      have h0 : h.length - 100 = 0 := by omega
      rw [h0, List.drop_zero]
  | cons e rest ih =>
      intro h hle
      have hlen' : (pushCap h e).length ≤ 100 := by
        rw [pushCap_eq h e hle, List.length_drop]
        simp only [List.length_append, List.length_cons, List.length_nil]
        omega
      rw [List.foldl_cons, ih (pushCap h e) hlen', pushCap_eq h e hle, List.length_drop]
      have hd : h.length + 1 - 100 ≤ (h ++ [e]).length := by
        simp only [List.length_append, List.length_cons, List.length_nil]
        omega
      rw [← List.drop_append_of_le_length hd, List.drop_drop]
      have hassoc : (h ++ [e]) ++ rest = h ++ e :: rest := by
        simp
      rw [hassoc]
      congr 1
      simp only [List.length_append, List.length_cons, List.length_nil, List.length_cons]
      omega

theorem appendAll_ok (r : String) (hr : r ≠ "") :
    ∀ (es : List Json) (rm : RMState) (room : Room),
      alookup rm r = some room →
      (∀ e ∈ es, e.falsy = false) →
      ∃ rm' room', appendAll rm r es = .ok rm' ∧ alookup rm' r = some room'
        ∧ room'.history = List.foldl pushCap room.history es := by
  intro es
  induction es with
  | nil =>
      intro rm room hroom _
      exact ⟨rm, room, rfl, hroom, by simp⟩
  | cons e rest ih =>
      intro rm room hroom hes
      have hef : e.falsy = false := hes e (List.mem_cons_self e rest)
      have hstep : addMessageToHistory rm r e =
          .ok (aset rm r { room with history := pushCap room.history e }) := by
        simp [addMessageToHistory, hr, hef, hroom]
      have hlook : alookup (aset rm r { room with history := pushCap room.history e }) r
          = some { room with history := pushCap room.history e } := alookup_aset_self _ _ _
      obtain ⟨rm', room', h1, h2, h3⟩ :=
        ih (aset rm r { room with history := pushCap room.history e })
          { room with history := pushCap room.history e } hlook
          (fun x hx => hes x (List.mem_cons_of_mem e hx))
      refine ⟨rm', room', ?_, h2, ?_⟩
      · simp [appendAll, hstep, h1]
      · rw [h3, List.foldl_cons]

/-- C3: for every room and every sequence of `n` `addMessageToHistory`
calls on it (starting from the room's creation, i.e. an empty history),
the room's history afterwards is exactly the last `min(n, 100)` appended
events in append order; in particular the history length never exceeds
100. -/
theorem roomHistory_bounded_fifo (rm : RMState) (r : String) (room : Room) (es : List Json)
    (hr : r ≠ "") (hroom : alookup rm r = some room) (hempty : room.history = [])
    (hes : ∀ e ∈ es, e.falsy = false) :
    ∃ rm', appendAll rm r es = .ok rm'
      ∧ getRoomHistory rm' r = .ok (es.drop (es.length - 100))
      ∧ (es.drop (es.length - 100)).length = min es.length 100 := by
  obtain ⟨rm', room', h1, h2, h3⟩ := appendAll_ok r hr es rm room hroom hes
  rw [hempty] at h3
  have hfold := foldl_pushCap_eq es [] (by simp)
  simp only [List.nil_append, List.length_nil, Nat.zero_add] at hfold
  refine ⟨rm', h1, ?_, ?_⟩
  · rw [hfold] at h3
    simp [getRoomHistory, hr, h2, h3]
  · rw [List.length_drop]
    omega

/-- Witness for C3 at a concrete registry and three events. -/
theorem roomHistory_bounded_fifo_witness :
    ("R" : String) ≠ ""
    ∧ (∀ e ∈ [Json.num 1, Json.num 2, Json.num 3], e.falsy = false)
    ∧ ∃ rm', appendAll [("R", (⟨"R", ["A"], []⟩ : Room))] "R" [Json.num 1, Json.num 2, Json.num 3] = .ok rm'
        ∧ getRoomHistory rm' "R"
            = .ok ([Json.num 1, Json.num 2, Json.num 3].drop
                ([Json.num 1, Json.num 2, Json.num 3].length - 100))
        ∧ ([Json.num 1, Json.num 2, Json.num 3].drop
            ([Json.num 1, Json.num 2, Json.num 3].length - 100)).length
            = min [Json.num 1, Json.num 2, Json.num 3].length 100 :=
  ⟨by decide, by decide,
    roomHistory_bounded_fifo _ "R" _ _ (by decide) rfl rfl (by decide)⟩

/-! ### Claim C4: a room is present iff it has members -/

/-- Registry mutations reachable from the connection handler and the
drop path: `addClientToRoom` and `removeClientFromRoom`. -/
inductive RegOp where
  | add (roomId clientId : String) : RegOp
  | remove (roomId clientId : String) : RegOp

/-- Apply one registry operation; a thrown error leaves the registry
unchanged (both operations validate their arguments before any
mutation). -/
def applyRegOp (rm : RMState) : RegOp → RMState
  | .add r c =>
      match addClientToRoom rm r c with
      | .ok rm' => rm'
      | .error _ => rm
  | .remove r c =>
      match removeClientFromRoom rm r c with
      | .ok rm' => rm'
      | .error _ => rm

/-- Run a sequence of registry operations from the initial empty
registry. -/
def applyRegOps (ops : List RegOp) : RMState := ops.foldl applyRegOp []

theorem addClientKey_ne_nil (cs : List String) (c : String) : addClientKey cs c ≠ [] := by
  by_cases h : c ∈ cs
  · simp [addClientKey, h]
    intro hnil
    subst hnil
    simp at h
  · simp [addClientKey, h]

theorem aset_append_single {α : Type} (l : List (String × α)) (k : String) (e v : α)
    (h : alookup l k = none) : aset (l ++ [(k, e)]) k v = l ++ [(k, v)] := by
  induction l with
  | nil => simp [aset]
  | cons p rest ih =>
      obtain ⟨k₀, w⟩ := p
      by_cases h0 : k₀ = k
      · simp [alookup, h0] at h
      · simp [alookup, h0] at h
        simp [aset, h0, ih h]

theorem applyRegOp_preserves_nonempty (rm : RMState) (op : RegOp)
    (hinv : ∀ p ∈ rm, p.2.clients ≠ []) :
    ∀ p ∈ applyRegOp rm op, p.2.clients ≠ [] := by
  cases op with
  | add r c =>
      by_cases hg : r = "" ∨ c = ""
      · have he : applyRegOp rm (.add r c) = rm := by
          simp [applyRegOp, addClientToRoom, hg]
        rw [he]; exact hinv
      · obtain ⟨hr, hc⟩ := not_or.mp hg
        cases hlook : alookup rm r with
        | some room =>
            have he : applyRegOp rm (.add r c)
                = aset rm r { room with clients := addClientKey room.clients c } := by
              simp [applyRegOp, addClientToRoom, hg, createRoom, hr, hc, hlook]
            rw [he]
            intro p hp
            rcases mem_aset _ _ _ _ hp with h | h
            · exact hinv p h
            · rw [h]
              simpa using addClientKey_ne_nil room.clients c
        | none =>
            have he : applyRegOp rm (.add r c)
                = rm ++ [(r, { id := r, clients := addClientKey [] c, history := [] })] := by
              simp [applyRegOp, addClientToRoom, hg, createRoom, hr, hc, hlook,
                aset_append_single rm r _ _ hlook]
            rw [he]
            intro p hp
            rcases List.mem_append.mp hp with h | h
            · exact hinv p h
            · simp only [List.mem_singleton] at h
              rw [h]
              simpa using addClientKey_ne_nil [] c
  | remove r c =>
      by_cases hg : r = "" ∨ c = ""
      · have he : applyRegOp rm (.remove r c) = rm := by
          simp [applyRegOp, removeClientFromRoom, hg]
        rw [he]; exact hinv
      · cases hlook : alookup rm r with
        | none =>
            have he : applyRegOp rm (.remove r c) = rm := by
              simp [applyRegOp, removeClientFromRoom, hg, hlook]
            rw [he]; exact hinv
        | some room =>
            by_cases hmem : c ∈ room.clients
            · by_cases hnil : room.clients.filter (fun x => x ≠ c) = []
              · have hnil' : ∀ a ∈ room.clients, a = c := by simpa using hnil
                have he : applyRegOp rm (.remove r c) = aerase rm r := by
                  simp [applyRegOp, removeClientFromRoom, hg, hlook, hmem]
                  rw [if_pos hnil']
                rw [he]
                intro p hp
                exact hinv p (mem_aerase _ _ _ hp)
              · have hnil' : ¬ ∀ a ∈ room.clients, a = c := by simpa using hnil
                have he : applyRegOp rm (.remove r c)
                    = aset rm r { room with clients := room.clients.filter (fun x => x ≠ c) } := by
                  simp [applyRegOp, removeClientFromRoom, hg, hlook, hmem]
                  rw [if_neg hnil']
                rw [he]
                intro p hp
                rcases mem_aset _ _ _ _ hp with h | h
                · exact hinv p h
                · rw [h]
                  simpa using hnil
            · have he : applyRegOp rm (.remove r c) = rm := by
                simp [applyRegOp, removeClientFromRoom, hg, hlook, hmem]
              rw [he]; exact hinv

theorem foldl_applyRegOp_preserves (ops : List RegOp) :
    ∀ rm, (∀ p ∈ rm, p.2.clients ≠ []) →
      ∀ p ∈ ops.foldl applyRegOp rm, p.2.clients ≠ [] := by
  induction ops with
  | nil => intro rm h; simpa using h
  | cons op rest ih =>
      intro rm h
      simp only [List.foldl_cons]
      exact ih _ (applyRegOp_preserves_nonempty rm op h)

/-- C4: after any sequence of add/remove registry operations a room is
present in the registry iff its member set is non-empty: every room
reachable from the empty registry has at least one member,
`removeClientFromRoom` deletes the room when its last member is removed,
and is a no-op when the room or the membership is absent. -/
theorem roomRegistry_nonempty_iff_present :
    (∀ (ops : List RegOp), ∀ p ∈ applyRegOps ops, p.2.clients ≠ [])
    ∧ (∀ (rm : RMState) (r c : String) (room : Room), r ≠ "" → c ≠ "" →
        alookup rm r = some room → room.clients = [c] →
        removeClientFromRoom rm r c = .ok (aerase rm r))
    ∧ (∀ (rm : RMState) (r c : String), r ≠ "" → c ≠ "" → alookup rm r = none →
        removeClientFromRoom rm r c = .ok rm)
    ∧ (∀ (rm : RMState) (r c : String) (room : Room), r ≠ "" → c ≠ "" →
        alookup rm r = some room → c ∉ room.clients →
        removeClientFromRoom rm r c = .ok rm) := by
  refine ⟨?_, ?_, ?_, ?_⟩
  · intro ops p hp
    exact foldl_applyRegOp_preserves ops [] (by simp) p hp
  · intro rm r c room hr hc hlook hsingle
    simp [removeClientFromRoom, hr, hc, hlook, hsingle]
  · intro rm r c hr hc hlook
    simp [removeClientFromRoom, hr, hc, hlook]
  · intro rm r c room hr hc hlook hmem
    simp [removeClientFromRoom, hr, hc, hlook, hmem]

/-- Witness for C4: removing the sole member of a concrete room deletes
the room, and the reachable-registry invariant at a concrete trace. -/
theorem roomRegistry_nonempty_iff_present_witness :
    removeClientFromRoom [("R", (⟨"R", ["A"], []⟩ : Room))] "R" "A"
      = .ok (aerase [("R", (⟨"R", ["A"], []⟩ : Room))] "R") :=
  roomRegistry_nonempty_iff_present.2.1 _ "R" "A" _ (by decide) (by decide) rfl rfl

/-! ### Connection hub (`SocketManager`, third revision: logger.ts 537-1111)

The per-connection closure variable `newClient` is, while the session is
current, exactly the Session Directory entry for `clientId`; the
embedding reads and writes it through the directory.  Outbound traffic
is a list of `Output` actions; a `send` is emitted iff the target
transport is OPEN (the call sites guard on `readyState === OPEN`, and
`sendWithRetry`'s first pass re-checks it).  Room identifiers carried by
`join` messages are strings, per the `roomId: string` signature of the
registry; a missing, falsy or non-string `roomId` takes the
`'roomId is required'` throw path. -/

/-- `WebSocket.readyState`. -/
inductive ReadyState where
  | connecting : ReadyState
  | opened : ReadyState
  | closing : ReadyState
  | closed : ReadyState
deriving DecidableEq

/-- A transport handle: identity plus ready state. -/
structure Ws where
  id : Nat
  ready : ReadyState
deriving DecidableEq

/-- Per-session presentational state (`ClientState`).  `x`, `y` and
`color` hold whatever JSON value the last `draw` supplied. -/
structure ClientState where
  x : Json
  y : Json
  color : Json
  lastActive : Nat

/-- A client session (`Client`): transport, state, current room. -/
structure Client where
  ws : Ws
  state : ClientState
  roomId : Option String

/-- The hub state: the session directory and the room registry. -/
structure Server where
  clients : List (String × Client)
  rooms : RMState

/-- Observable transport actions. -/
inductive Output where
  | send (wsId : Nat) (payload : Json) : Output
  | terminate (wsId : Nat) : Output
  | ping (wsId : Nat) : Output

/-- An inbound text frame: either valid JSON or a frame on which
`JSON.parse` throws a `SyntaxError`. -/
inductive Frame where
  | invalid (raw : String) : Frame
  | valid (m : Json) : Frame

def invalidJsonMsg : Json :=
  .obj [("type", .str "error"), ("message", .str "Invalid JSON")]

def roomHistoryMsg (r : String) (h : List Json) : Json :=
  .obj [("type", .str "roomHistory"), ("roomId", .str r), ("history", .arr h)]

def roomUserCountMsg (r : String) (n : Nat) : Json :=
  .obj [("type", .str "roomUserCount"), ("roomId", .str r), ("count", .num (n : Int))]

def stateJson (s : ClientState) : Json :=
  .obj [("x", s.x), ("y", s.y), ("color", s.color), ("lastActive", .num (s.lastActive : Int))]

def welcomeMsg (clientId : String) (s : ClientState) : Json :=
  .obj [("type", .str "welcome"), ("clientId", .str clientId), ("state", stateJson s)]

/-- One nominal pass of a transport send: the payload goes out iff the
transport is OPEN (`sendWithRetry` lines 989-1001). -/
def trySendWs (ws : Ws) (payload : Json) : List Output :=
  if ws.ready = .opened then [.send ws.id payload] else []

/-- `SocketManager.sendRoomHistory` (third revision, logger.ts
911-939): argument guard, directory lookup, OPEN check, then one
`roomHistory` frame; every failure path is caught and yields nothing. -/
def sendRoomHistory (st : Server) (clientId roomId : String) : List Output :=
  if clientId = "" ∨ roomId = "" then []
  else
    match alookup st.clients clientId with
    | none => []
    | some cl =>
        if cl.ws.ready ≠ .opened then []
        else
          match getRoomHistory st.rooms roomId with
          | .error _ => []
          | .ok h => [.send cl.ws.id (roomHistoryMsg roomId h)]

/-- Recipient loop of `broadcastRoomUserCount`: every member whose
session exists and whose transport is OPEN gets the frame. -/
def countSends (st : Server) (payload : Json) : List String → List Output
  | [] => []
  | cid :: rest =>
      (match alookup st.clients cid with
       | some cl => if cl.ws.ready = .opened then [Output.send cl.ws.id payload] else []
       | none => []) ++ countSends st payload rest

/-- `SocketManager.broadcastRoomUserCount` (third revision, logger.ts
869-904). -/
def broadcastRoomUserCount (st : Server) (roomId : String) : List Output :=
  if roomId = "" then []
  else
    match getRoomUserCount st.rooms roomId with
    | .error _ => []
    | .ok n =>
        match getClientsInRoom st.rooms roomId with
        | .error _ => []
        | .ok cs => if cs = [] then [] else countSends st (roomUserCountMsg roomId n) cs

/-- `SocketManager.sendWelcomeMessage` (third revision, logger.ts
945-974). -/
def sendWelcomeMessage (st : Server) (clientId : String) : List Output :=
  match alookup st.clients clientId with
  | none => []
  | some cl =>
      if cl.ws.ready ≠ .opened then []
      else [.send cl.ws.id (welcomeMsg clientId cl.state)]

/-- Object-literal field update: overwrite in place, else append (the
semantics of a later duplicate key in a JavaScript object literal). -/
def setField : List (String × Json) → String → Json → List (String × Json)
  | [], k, v => [(k, v)]
  | (k₀, v₀) :: rest, k, v =>
      if k₀ = k then (k, v) :: rest else (k₀, v₀) :: setField rest k v

/-- Spread `{...m}`: the fields of an object, nothing otherwise. -/
def spreadFields : Json → List (String × Json)
  | .obj fs => fs
  | _ => []

/-- The `messageWithMetadata` stamp of the third revision's
`broadcastMessage` (logger.ts 812-819): the original event plus
`sender: { id, color }` and `timestamp`. -/
def stampMessage (m : Json) (senderId : String) (senderColor : Json) (ts : Nat) : Json :=
  .obj (setField (setField (spreadFields m) "sender"
    (.obj [("id", .str senderId), ("color", senderColor)])) "timestamp" (.num (ts : Int)))

/-- Recipient loop of `broadcastMessage`: every member other than the
sender whose session exists and whose transport is OPEN. -/
def sendsToMembers (st : Server) (senderId : String) (payload : Json) : List String → List Output
  | [] => []
  | cid :: rest =>
      (if cid ≠ senderId then
        match alookup st.clients cid with
        | some cl => if cl.ws.ready = .opened then [Output.send cl.ws.id payload] else []
        | none => []
       else []) ++ sendsToMembers st senderId payload rest

/-- Room loop of `broadcastMessage`: skip rooms the registry no longer
has (`continue`); a thrown id error aborts the loop (outer catch). -/
def broadcastRooms (st : Server) (senderId : String) (payload : Json) :
    List String → List Output
  | [] => []
  | r :: rest =>
      match getRoomById st.rooms r with
      | .error _ => []
      | .ok none => broadcastRooms st senderId payload rest
      | .ok (some _) =>
          match getClientsInRoom st.rooms r with
          | .error _ => []
          | .ok cs => sendsToMembers st senderId payload cs ++ broadcastRooms st senderId payload rest

/-- `SocketManager.broadcastMessage` (third revision, logger.ts
796-863): resolve the sender, fetch its rooms, stamp the payload with
sender metadata and a timestamp, then fan out. -/
def broadcastMessage (st : Server) (senderId : String) (m : Json) (ts : Nat) : List Output :=
  match alookup st.clients senderId with
  | none => []
  | some sender =>
      match getRoomsByClientId st.rooms senderId with
      | .error _ => []
      | .ok rooms =>
          if rooms = [] then []
          else broadcastRooms st senderId (stampMessage m senderId sender.state.color ts) rooms

/-- `SocketManager.handleDisconnection` (third revision, logger.ts
768-789): remove the session from its room, broadcast the new user
count, delete it from the directory. -/
def handleDisconnection (st : Server) (clientId : String) : Server × List Output :=
  match alookup st.clients clientId with
  | none => (st, [])
  | some cl =>
      match cl.roomId with
      | none => ({ st with clients := aerase st.clients clientId }, [])
      | some r =>
          match removeClientFromRoom st.rooms r clientId with
          | .error _ => (st, [])
          | .ok rms =>
              ({ clients := aerase st.clients clientId, rooms := rms },
                broadcastRoomUserCount { st with rooms := rms } r)

def heartbeatIntervalTime : Nat := 30000

def heartbeatTimeoutTime : Nat := 10000

/-- The scan phase of `checkHeartbeats`: mark sessions stale past
`heartbeatIntervalTime + heartbeatTimeoutTime` (40 000 ms), ping the
rest whose transport is OPEN. -/
def scanClients (now : Nat) : List (String × Client) → List String × List Output
  | [] => ([], [])
  | (cid, cl) :: rest =>
      let (ms, ps) := scanClients now rest
      if heartbeatIntervalTime + heartbeatTimeoutTime < now - cl.state.lastActive then
        (cid :: ms, ps)
      else if cl.ws.ready = .opened then (ms, Output.ping cl.ws.id :: ps)
      else (ms, ps)

/-- The eviction phase of `checkHeartbeats`: drop each marked session
through `handleDisconnection`. -/
def evictAll : Server → List String → Server × List Output
  | st, [] => (st, [])
  | st, cid :: rest =>
      let p := handleDisconnection st cid
      let q := evictAll p.1 rest
      (q.1, p.2 ++ q.2)

/-- `SocketManager.checkHeartbeats` (third revision, logger.ts
1037-1066). -/
def checkHeartbeats (st : Server) (now : Nat) : Server × List Output :=
  let sp := scanClients now st.clients
  let ev := evictAll st sp.1
  (ev.1, sp.2 ++ ev.2)

/-- The freshly created `newClient` record of `handleConnection`. -/
def freshClientState (color : String) (now : Nat) : ClientState :=
  { x := .num 0, y := .num 0, color := .str color, lastActive := now }

/-- `ws.terminate()` on the prior session: its ready state stops being
OPEN. -/
def setWsClosed (cl : Client) : Client :=
  { cl with ws := { cl.ws with ready := .closed } }

/-- The admission phase of `SocketManager.handleConnection` (third
revision, logger.ts 570-615): displace any existing session for
`clientId` (terminate its transport, capture and leave its room),
restore the captured room onto the fresh session and broadcast the user
count, install the fresh session, send the welcome frame.  An id error
thrown by the registry reaches the outer catch, which terminates the
new transport. -/
def admitConnection (st : Server) (clientId : String) (wsNew : Ws) (color : String) (now : Nat) :
    Server × List Output :=
  match alookup st.clients clientId with
  | none =>
      let st₁ : Server :=
        { st with clients := aset st.clients clientId ⟨wsNew, freshClientState color now, none⟩ }
      (st₁, sendWelcomeMessage st₁ clientId)
  | some old =>
      let st₀ : Server := { st with clients := aset st.clients clientId (setWsClosed old) }
      match old.roomId with
      | none =>
          let st₁ : Server :=
            { st₀ with clients := aset st₀.clients clientId ⟨wsNew, freshClientState color now, none⟩ }
          (st₁, Output.terminate old.ws.id :: sendWelcomeMessage st₁ clientId)
      | some r =>
          match removeClientFromRoom st₀.rooms r clientId with
          | .error _ => (st₀, [Output.terminate old.ws.id, Output.terminate wsNew.id])
          | .ok rms₁ =>
              match addClientToRoom rms₁ r clientId with
              | .error _ =>
                  ({ st₀ with rooms := rms₁ },
                    [Output.terminate old.ws.id, Output.terminate wsNew.id])
              | .ok rms₂ =>
                  let st₂ : Server := { st₀ with rooms := rms₂ }
                  let cNew : Client := ⟨wsNew, freshClientState color now, some r⟩
                  let st₃ : Server := { st₂ with clients := aset st₂.clients clientId cNew }
                  (st₃, Output.terminate old.ws.id ::
                    (broadcastRoomUserCount st₂ r ++ sendWelcomeMessage st₃ clientId))

/-- The `roomId` carried by a join message.  Room identifiers are
strings (`roomId: string` in the registry); a missing or falsy
`roomId` is `none` and takes the `'roomId is required'` throw path. -/
def joinRoomIdOf (m : Json) : Option String :=
  match m.getField "roomId" with
  | some (.str s) => if s = "" then none else some s
  | _ => none

/-- The `draw` branch (logger.ts 677-683): overwrite `x` and `y` with
whatever the message carries, overwrite `color` only when truthy. -/
def applyDraw (c : Client) (m : Json) : Client :=
  let c₁ : Client := { c with state := { c.state with
    x := (m.getField "x").getD Json.null, y := (m.getField "y").getD Json.null } }
  match m.getField "color" with
  | some v => if v.falsy then c₁ else { c₁ with state := { c₁.state with color := v } }
  | none => c₁

/-- `newClient.state.lastActive = Date.now()` (logger.ts 685). -/
def updateLastActive (st : Server) (clientId : String) (now : Nat) : Server :=
  match alookup st.clients clientId with
  | some c =>
      let c' : Client := { c with state := { c.state with lastActive := now } }
      { st with clients := aset st.clients clientId c' }
  | none => st

/-- `rooms.forEach(roomId => addMessageToHistory(roomId, message))`
(logger.ts 692-694): a throw aborts the loop, keeping the appends made
so far; the second component records whether the loop completed. -/
def appendHistAll : RMState → List String → Json → RMState × Bool
  | rm, [], _ => (rm, true)
  | rm, r :: rs, m =>
      match addMessageToHistory rm r m with
      | .ok rm' => appendHistAll rm' rs m
      | .error _ => (rm, false)

/-- Second half of the join branch (logger.ts 658-674): set the
session's `roomId`, add it to the room, send the room history to the
joiner, broadcast the user count.  The Boolean records whether the
branch ran without a thrown id error. -/
def processJoinAdd (st : Server) (clientId : String) (c : Client) (r : String) :
    Server × List Output × Bool :=
  let st₁ : Server := { st with clients := aset st.clients clientId { c with roomId := some r } }
  match addClientToRoom st₁.rooms r clientId with
  | .error _ => (st₁, [], false)
  | .ok rms =>
      let st₂ : Server := { st₁ with rooms := rms }
      (st₂, sendRoomHistory st₂ clientId r ++ broadcastRoomUserCount st₂ r, true)

/-- The join branch (logger.ts 648-675): leave the current room first,
then join the named one. -/
def processJoin (st : Server) (clientId : String) (c : Client) (r : String) :
    Server × List Output × Bool :=
  match c.roomId with
  | some r₀ =>
      match removeClientFromRoom st.rooms r₀ clientId with
      | .error _ => (st, [], false)
      | .ok rms => processJoinAdd { st with rooms := rms } clientId c r
  | none => processJoinAdd st clientId c r

/-- The message handler of `SocketManager.handleConnection` (third
revision, logger.ts 623-724), for a session whose directory entry is
current.  An invalid frame takes the `SyntaxError` catch: one error
reply through `sendWithRetry` (nominal pass) and no state change.  A
valid event is dropped unless the session is in a room or the event is
a `join`; `join` moves the session, resends history and the user count;
everything else updates `draw` state, refreshes `lastActive`, is
archived in each of the sender's rooms and relayed.  A thrown error
anywhere lands in the generic catch: processing stops, mutations made
so far persist. -/
def handleMessage (st : Server) (clientId : String) (fr : Frame) (now : Nat) :
    Server × List Output :=
  match fr with
  | .invalid _ =>
      match alookup st.clients clientId with
      | some c => (st, trySendWs c.ws invalidJsonMsg)
      | none => (st, [])
  | .valid m =>
      match alookup st.clients clientId with
      | none => (st, [])
      | some c =>
          if m.isType "join" then
            match joinRoomIdOf m with
            | none => (st, [])
            | some r =>
                match processJoin st clientId c r with
                | (st', outs, true) => (updateLastActive st' clientId now, outs)
                | (st', outs, false) => (st', outs)
          else
            match getRoomsByClientId st.rooms clientId with
            | .error _ => (st, [])
            | .ok rooms =>
                if rooms = [] then (st, [])
                else
                  let c₁ := if m.isType "draw" then applyDraw c m else c
                  let c₂ : Client := { c₁ with state := { c₁.state with lastActive := now } }
                  let st₁ : Server := { st with clients := aset st.clients clientId c₂ }
                  match getRoomsByClientId st₁.rooms clientId with
                  | .error _ => (st₁, [])
                  | .ok rooms₂ =>
                      if rooms₂ = [] then (st₁, [])
                      else
                        match appendHistAll st₁.rooms rooms₂ m with
                        | (rms, false) => ({ st₁ with rooms := rms }, [])
                        | (rms, true) =>
                            let st₂ : Server := { st₁ with rooms := rms }
                            (st₂, broadcastMessage st₂ clientId m now)

/-! ### `sendWithRetry` (third revision, logger.ts 984-1032)

The retry loop is modelled against an oracle giving the outcome of each
pass: the transport was found non-OPEN, or the race of the send against
the `sendTimeoutMs` timeout ended in success, or it ended in a transport
error or timeout (`failure`).  The returned trace records each pass and
each `retryDelayMs` wait. -/

inductive PassOutcome where
  | notOpen : PassOutcome
  | success : PassOutcome
  | failure : PassOutcome
deriving DecidableEq

inductive SendEvent where
  | attempt (o : PassOutcome) : SendEvent
  | waitRetry (ms : Nat) : SendEvent
deriving DecidableEq

def sendTimeoutMs : Nat := 5000

def retryDelayMs : Nat := 1000

def maxRetriesDefault : Nat := 3

/-- The `while (retries < maxRetries)` loop: fuel counts the remaining
passes.  Non-OPEN returns false at once; success returns true at once;
a failed or timed-out pass waits `retryDelayMs` before the next pass,
except after the final pass. -/
def swrAux (oracle : Nat → PassOutcome) : Nat → Nat → Bool × List SendEvent
  | _, 0 => (false, [])
  | idx, fuel + 1 =>
      match oracle idx with
      | .notOpen => (false, [.attempt .notOpen])
      | .success => (true, [.attempt .success])
      | .failure =>
          if fuel = 0 then (false, [.attempt .failure])
          else
            let p := swrAux oracle (idx + 1) fuel
            (p.1, .attempt .failure :: .waitRetry retryDelayMs :: p.2)

/-- `sendWithRetry` with the default budget of 3 passes, driven by the
outcomes of the successive passes. -/
def sendWithRetryModel (passes : List PassOutcome) : Bool × List SendEvent :=
  swrAux (fun k => passes.getD k .failure) 0 maxRetriesDefault

def countAttempts (tr : List SendEvent) : Nat :=
  (tr.filter (fun e => match e with | .attempt _ => true | _ => false)).length

/-- Every wait in the trace is exactly `retryDelayMs`, follows a failed
pass and precedes another pass. -/
def goodTrace : List SendEvent → Bool
  | [] => true
  | [SendEvent.attempt _] => true
  | SendEvent.attempt PassOutcome.failure :: SendEvent.waitRetry ms :: rest =>
      (ms == retryDelayMs) &&
      (match rest with
        | SendEvent.attempt _ :: _ => true
        | _ => false) && goodTrace rest
  | _ => false

/-- C6: `sendWithRetry` makes at most 3 passes; it returns true iff some
pass succeeds within the timeout and the passes before it failed; a pass
finding the transport non-OPEN ends the call immediately with false;
three failed or timed-out passes return false; and each failed pass is
followed by a 1000 ms wait exactly when another pass follows. -/
theorem sendWithRetry_spec (o0 o1 o2 : PassOutcome) :
    countAttempts (sendWithRetryModel [o0, o1, o2]).2 ≤ 3
    ∧ ((sendWithRetryModel [o0, o1, o2]).1 = true ↔
        ∃ k, k < 3 ∧ [o0, o1, o2].getD k .failure = .success
          ∧ ∀ j, j < k → [o0, o1, o2].getD j .failure = .failure)
    ∧ (∀ k, k < 3 → [o0, o1, o2].getD k .failure = .notOpen →
        (∀ j, j < k → [o0, o1, o2].getD j .failure = .failure) →
        (sendWithRetryModel [o0, o1, o2]).1 = false
          ∧ countAttempts (sendWithRetryModel [o0, o1, o2]).2 = k + 1)
    ∧ ((∀ k, k < 3 → [o0, o1, o2].getD k .failure = .failure) →
        (sendWithRetryModel [o0, o1, o2]).1 = false
          ∧ countAttempts (sendWithRetryModel [o0, o1, o2]).2 = 3)
    ∧ goodTrace (sendWithRetryModel [o0, o1, o2]).2 = true := by
  cases o0 <;> cases o1 <;> cases o2 <;> decide

/-! ### Claim C2: invalid JSON gets one error reply and no state change -/

/-- C2: a frame that is not valid JSON is answered (via the
`SyntaxError` catch, logger.ts 711-723) with exactly one
`{ type: "error", message: "Invalid JSON" }` reply when the session's
transport is OPEN and with nothing otherwise; the connection is not
closed and the session, room and history state are left unchanged. -/
theorem invalidJson_reply_no_state_change (st : Server) (clientId raw : String)
    (now : Nat) (c : Client) (h : alookup st.clients clientId = some c) :
    handleMessage st clientId (Frame.invalid raw) now
      = (st, if c.ws.ready = .opened then [Output.send c.ws.id invalidJsonMsg] else []) := by
  simp [handleMessage, h, trySendWs]

def wsC2 : Ws := ⟨1, .opened⟩

def clC2 : Client := ⟨wsC2, freshClientState "#FFFFFF" 0, none⟩

def stC2 : Server := ⟨[("A", clC2)], []⟩

/-- Witness for C2 at a concrete OPEN session. -/
theorem invalidJson_reply_no_state_change_witness :
    handleMessage stC2 "A" (Frame.invalid "not json") 5
      = (stC2, if clC2.ws.ready = .opened then [Output.send clC2.ws.id invalidJsonMsg] else []) :=
  invalidJson_reply_no_state_change stC2 "A" "not json" 5 clC2 rfl

/-! ### Claim C7: non-join events from roomless sessions are dropped -/

/-- C7: a non-join event received from a session that is a member of no
room is dropped without any side-effect: the handler (logger.ts
631-645) returns before any mutation, sends no reply and broadcasts
nothing. -/
theorem nonMember_message_dropped (st : Server) (clientId : String) (m : Json) (now : Nat)
    (c : Client) (hc : alookup st.clients clientId = some c)
    (hjoin : m.isType "join" = false)
    (hrooms : getRoomsByClientId st.rooms clientId = .ok []) :
    handleMessage st clientId (Frame.valid m) now = (st, []) := by
  simp [handleMessage, hc, hjoin, hrooms]

def clC7 : Client := ⟨⟨3, .opened⟩, freshClientState "#00FF00" 0, none⟩

def stC7 : Server := ⟨[("A", clC7)], []⟩

def mC7 : Json := .obj [("type", .str "draw"), ("x", .num 1), ("y", .num 1)]

/-- Witness for C7: a `draw` from a session that never joined. -/
theorem nonMember_message_dropped_witness :
    handleMessage stC7 "A" (Frame.valid mC7) 5 = (stC7, []) :=
  nonMember_message_dropped stC7 "A" mC7 5 clC7 rfl rfl rfl

/-! ### Claim C5: rejoining the same room -/

def chatC5 : Json := .obj [("type", .str "chat"), ("text", .str "hello")]

def clC5 : Client := ⟨⟨1, .opened⟩, freshClientState "#AAAAAA" 0, some "R"⟩

def stC5 : Server := ⟨[("A", clC5)], [("R", ⟨"R", ["A"], [chatC5]⟩)]⟩

def joinC5 : Json := .obj [("type", .str "join"), ("roomId", .str "R")]

/-- C5 counterexample: when the joiner is the room's sole member, the
join branch's remove-then-add pair deletes and recreates the room, so
the history is NOT preserved — it is cleared, and the `roomHistory`
resent to the joiner is empty. -/
theorem rejoin_sole_member_clears_history :
    historyOfD stC5.rooms "R" = [chatC5]
    ∧ historyOfD (handleMessage stC5 "A" (Frame.valid joinC5) 7).1.rooms "R" = []
    ∧ (handleMessage stC5 "A" (Frame.valid joinC5) 7).2
        = [Output.send 1 (roomHistoryMsg "R" []), Output.send 1 (roomUserCountMsg "R" 1)] :=
  ⟨rfl, rfl, rfl⟩

/-! ### Claim C9: relay payloads -/

def mC9 : Json := .obj [("type", .str "chat")]

def clAC9 : Client := ⟨⟨1, .opened⟩, freshClientState "#ABCDEF" 0, some "R"⟩

def clBC9 : Client := ⟨⟨2, .opened⟩, freshClientState "#123456" 0, some "R"⟩

def stC9 : Server := ⟨[("A", clAC9), ("B", clBC9)], [("R", ⟨"R", ["A", "B"], []⟩)]⟩

def pC9 : Json := stampMessage mC9 "A" (Json.str "#ABCDEF") 7

/-- C9 counterexample: the third revision's `broadcastMessage`
(logger.ts 812-819) stamps `sender` and `timestamp` metadata onto the
payload, so the frame delivered to the other member of the room is not
the original event serialized verbatim. -/
theorem broadcast_payload_not_verbatim :
    broadcastMessage stC9 "A" mC9 7 = [Output.send 2 pC9]
    ∧ pC9 ≠ mC9
    ∧ Json.hasField pC9 "sender" = true
    ∧ Json.hasField pC9 "timestamp" = true
    ∧ Json.hasField mC9 "sender" = false :=
  ⟨rfl,
    fun h => absurd (congrArg (fun j => Json.hasField j "sender") h) (by decide),
    rfl, rfl, rfl⟩

/-! ### Helper lemmas on the registry and the fan-out loops -/

theorem alookup_mem {α : Type} (l : List (String × α)) (k : String) (v : α)
    (h : alookup l k = some v) : (k, v) ∈ l := by
  induction l with
  | nil => simp [alookup] at h
  | cons p rest ih =>
      obtain ⟨k₀, w⟩ := p
      by_cases h0 : k₀ = k
      · subst h0
        simp [alookup] at h
        simp [h]
      · simp [alookup, h0] at h
        exact List.mem_cons_of_mem _ (ih h)

theorem alookup_eq_of_mem_nodup {α : Type} (l : List (String × α)) (k : String) (v : α)
    (hnd : (l.map Prod.fst).Nodup) (h : (k, v) ∈ l) : alookup l k = some v := by
  induction l with
  | nil => simp at h
  | cons p rest ih =>
      obtain ⟨k₀, w⟩ := p
      simp only [List.map_cons, List.nodup_cons] at hnd
      rcases List.mem_cons.mp h with h1 | h1
      · rw [Prod.mk.injEq] at h1
        simp [alookup, h1.1, h1.2]
      · have hk : k₀ ≠ k := by
          intro hcontra
          subst hcontra
          exact hnd.1 (List.mem_map.mpr ⟨(k₀, v), h1, rfl⟩)
        simp [alookup, hk]
        exact ih hnd.2 h1

theorem mem_addClientKey (cs : List String) (c : String) : c ∈ addClientKey cs c := by
  by_cases h : c ∈ cs
  · simp [addClientKey, h]
  · simp [addClientKey, h]

theorem removeClientFromRoom_ok (rm : RMState) (r c : String) (hr : r ≠ "") (hc : c ≠ "") :
    ∃ rm', removeClientFromRoom rm r c = .ok rm' := by
  have hg : ¬ (r = "" ∨ c = "") := by simp [hr, hc]
  cases hlook : alookup rm r with
  | none => exact ⟨rm, by simp [removeClientFromRoom, hg, hlook]⟩
  | some room =>
      by_cases hmem : c ∈ room.clients
      · simp only [removeClientFromRoom, if_neg hg, hlook, if_pos hmem]
        by_cases hnil : room.clients.filter (fun x => x ≠ c) = []
        · rw [if_pos hnil]; exact ⟨_, rfl⟩
        · rw [if_neg hnil]; exact ⟨_, rfl⟩
      · exact ⟨rm, by simp [removeClientFromRoom, hg, hlook, hmem]⟩

theorem removeClientFromRoom_member_kept (rm : RMState) (r c : String) (room : Room)
    (hr : r ≠ "") (hc : c ≠ "") (hlook : alookup rm r = some room)
    (hmem : c ∈ room.clients) (hnil : room.clients.filter (fun x => x ≠ c) ≠ []) :
    removeClientFromRoom rm r c
      = .ok (aset rm r { room with clients := room.clients.filter (fun x => x ≠ c) }) := by
  have hg : ¬ (r = "" ∨ c = "") := by simp [hr, hc]
  simp only [removeClientFromRoom, if_neg hg, hlook, if_pos hmem, if_neg hnil]

theorem addClientToRoom_existing (rm : RMState) (r c : String) (room : Room)
    (hr : r ≠ "") (hc : c ≠ "") (hlook : alookup rm r = some room) :
    addClientToRoom rm r c
      = .ok (aset rm r { room with clients := addClientKey room.clients c }) := by
  simp [addClientToRoom, createRoom, hr, hc, hlook]

theorem addClientToRoom_ok (rm : RMState) (r c : String) (hr : r ≠ "") (hc : c ≠ "") :
    ∃ rm', addClientToRoom rm r c = .ok rm'
      ∧ c ∈ membersOfD rm' r := by
  have hg : ¬ (r = "" ∨ c = "") := by simp [hr, hc]
  cases hlook : alookup rm r with
  | some room =>
      refine ⟨_, addClientToRoom_existing rm r c room hr hc hlook, ?_⟩
      simp only [membersOfD, alookup_aset_self]
      exact mem_addClientKey _ _
  | none =>
      refine ⟨aset (rm ++ [(r, { id := r, clients := [], history := [] })]) r
        { id := r, clients := addClientKey [] c, history := [] }, ?_, ?_⟩
      · simp [addClientToRoom, createRoom, hr, hc, hlook]
      · simp only [membersOfD, alookup_aset_self]
        exact mem_addClientKey _ _

theorem not_mem_after_remove (rm : RMState) (r c : String) (rm' : RMState)
    (h : removeClientFromRoom rm r c = .ok rm') : c ∉ membersOfD rm' r := by
  by_cases hg : r = "" ∨ c = ""
  · simp [removeClientFromRoom, hg] at h
  cases hlook : alookup rm r with
  | none =>
      simp [removeClientFromRoom, hg, hlook] at h
      subst h
      simp [membersOfD, hlook]
  | some room =>
      by_cases hmem : c ∈ room.clients
      · by_cases hnil : room.clients.filter (fun x => x ≠ c) = []
        · simp only [removeClientFromRoom, if_neg hg, hlook, if_pos hmem, if_pos hnil,
            Except.ok.injEq] at h
          subst h
          simp [membersOfD, alookup_aerase_self]
        · simp only [removeClientFromRoom, if_neg hg, hlook, if_pos hmem, if_neg hnil,
            Except.ok.injEq] at h
          subst h
          simp [membersOfD, alookup_aset_self, List.mem_filter]
      · simp only [removeClientFromRoom, if_neg hg, hlook, if_neg hmem, Except.ok.injEq] at h
        subst h
        simp [membersOfD, hlook]
        exact hmem

theorem mem_membersOfD_after_remove (rm : RMState) (r c : String) (rm' : RMState)
    (h : removeClientFromRoom rm r c = .ok rm') (x r' : String)
    (hx : x ∈ membersOfD rm' r') : x ∈ membersOfD rm r' := by
  by_cases hg : r = "" ∨ c = ""
  · simp [removeClientFromRoom, hg] at h
  cases hlook : alookup rm r with
  | none =>
      simp [removeClientFromRoom, hg, hlook] at h
      subst h
      exact hx
  | some room =>
      by_cases hmem : c ∈ room.clients
      · by_cases hnil : room.clients.filter (fun x => x ≠ c) = []
        · simp only [removeClientFromRoom, if_neg hg, hlook, if_pos hmem, if_pos hnil,
            Except.ok.injEq] at h
          subst h
          by_cases hr' : r' = r
          · subst hr'
            simp [membersOfD, alookup_aerase_self] at hx
          · rw [membersOfD, alookup_aerase_ne _ _ _ (fun hh => hr' hh)] at hx
            exact hx
        · simp only [removeClientFromRoom, if_neg hg, hlook, if_pos hmem, if_neg hnil,
            Except.ok.injEq] at h
          subst h
          by_cases hr' : r' = r
          · subst hr'
            simp only [membersOfD, alookup_aset_self] at hx
            rw [membersOfD, hlook]
            exact (List.mem_filter.mp hx).1
          · rw [membersOfD, alookup_aset_ne _ _ _ _ (fun hh => hr' hh)] at hx
            exact hx
      · simp only [removeClientFromRoom, if_neg hg, hlook, if_neg hmem, Except.ok.injEq] at h
        subst h
        exact hx

theorem getClientsInRoom_eq (rm : RMState) (r : String) (hr : r ≠ "") :
    getClientsInRoom rm r = .ok (membersOfD rm r) := by
  cases hlook : alookup rm r with
  | none => simp [getClientsInRoom, hr, hlook, membersOfD]
  | some room => simp [getClientsInRoom, hr, hlook, membersOfD]

theorem getRoomUserCount_eq (rm : RMState) (r : String) (room : Room)
    (hr : r ≠ "") (hlook : alookup rm r = some room) :
    getRoomUserCount rm r = .ok (membersOfD rm r).length := by
  simp [getRoomUserCount, hr, hlook, membersOfD]

theorem mem_countSends (st : Server) (payload : Json) (cs : List String) (cid : String)
    (cl : Client) (hmem : cid ∈ cs) (hlook : alookup st.clients cid = some cl)
    (hopen : cl.ws.ready = .opened) :
    Output.send cl.ws.id payload ∈ countSends st payload cs := by
  induction cs with
  | nil => cases hmem
  | cons c₀ rest ih =>
      simp only [countSends]
      rcases List.mem_cons.mp hmem with h | h
      · subst h
        apply List.mem_append_left
        rw [hlook]
        simp [hopen]
      · exact List.mem_append_right _ (ih h)

theorem mem_sendsToMembers (st : Server) (senderId : String) (payload : Json)
    (cs : List String) (cid : String) (cl : Client) (hmem : cid ∈ cs)
    (hne : cid ≠ senderId) (hlook : alookup st.clients cid = some cl)
    (hopen : cl.ws.ready = .opened) :
    Output.send cl.ws.id payload ∈ sendsToMembers st senderId payload cs := by
  induction cs with
  | nil => cases hmem
  | cons c₀ rest ih =>
      simp only [sendsToMembers]
      rcases List.mem_cons.mp hmem with h | h
      · subst h
        apply List.mem_append_left
        rw [if_pos hne, hlook]
        simp [hopen]
      · exact List.mem_append_right _ (ih h)

/-! ### Claim C1: session resumption on reconnect -/

/-- C1: admitting a connection for a `clientId` that already has a live
session force-closes the prior session's transport, replaces the prior
session in the directory with a fresh one (new transport, fresh state
and color), re-adds the fresh session to the prior session's room, and
triggers a `roomUserCount` broadcast for that room, delivered to every
other member whose transport is OPEN. -/
theorem session_resumption (st : Server) (clientId : String) (wsNew : Ws) (color : String)
    (now : Nat) (old : Client) (r : String)
    (hold : alookup st.clients clientId = some old)
    (hrid : old.roomId = some r) (hr : r ≠ "") (hcid : clientId ≠ "") :
    Output.terminate old.ws.id ∈ (admitConnection st clientId wsNew color now).2
    ∧ alookup (admitConnection st clientId wsNew color now).1.clients clientId
        = some ⟨wsNew, freshClientState color now, some r⟩
    ∧ clientId ∈ membersOfD (admitConnection st clientId wsNew color now).1.rooms r
    ∧ ∀ x cx, x ∈ membersOfD (admitConnection st clientId wsNew color now).1.rooms r →
        x ≠ clientId → alookup st.clients x = some cx → cx.ws.ready = .opened →
        Output.send cx.ws.id (roomUserCountMsg r
            (membersOfD (admitConnection st clientId wsNew color now).1.rooms r).length)
          ∈ (admitConnection st clientId wsNew color now).2 := by
  obtain ⟨rms₁, hremove⟩ := removeClientFromRoom_ok st.rooms r clientId hr hcid
  obtain ⟨rms₂, hadd, hmem₂⟩ := addClientToRoom_ok rms₁ r clientId hr hcid
  have heq : admitConnection st clientId wsNew color now
      = (⟨aset (aset st.clients clientId (setWsClosed old)) clientId
            ⟨wsNew, freshClientState color now, some r⟩, rms₂⟩,
         Output.terminate old.ws.id ::
           (broadcastRoomUserCount ⟨aset st.clients clientId (setWsClosed old), rms₂⟩ r
             ++ sendWelcomeMessage
                 ⟨aset (aset st.clients clientId (setWsClosed old)) clientId
                    ⟨wsNew, freshClientState color now, some r⟩, rms₂⟩ clientId)) := by
    simp [admitConnection, hold, hrid, hremove, hadd]
  rw [heq]
  refine ⟨List.mem_cons_self _ _, alookup_aset_self _ _ _, hmem₂, ?_⟩
  intro x cx hx hne hcx hopen
  cases hlook₂ : alookup rms₂ r with
  | none =>
      rw [membersOfD, hlook₂] at hmem₂
      cases hmem₂
  | some room₂ =>
      have hcne : membersOfD rms₂ r ≠ [] := List.ne_nil_of_mem hmem₂
      have hbrc : broadcastRoomUserCount ⟨aset st.clients clientId (setWsClosed old), rms₂⟩ r
          = countSends ⟨aset st.clients clientId (setWsClosed old), rms₂⟩
              (roomUserCountMsg r (membersOfD rms₂ r).length) (membersOfD rms₂ r) := by
        simp only [broadcastRoomUserCount, if_neg hr,
          getRoomUserCount_eq rms₂ r room₂ hr hlook₂, getClientsInRoom_eq rms₂ r hr,
          if_neg hcne]
      apply List.mem_cons_of_mem
      apply List.mem_append_left
      rw [hbrc]
      apply mem_countSends _ _ _ x cx hx _ hopen
      show alookup (aset st.clients clientId (setWsClosed old)) x = some cx
      rw [alookup_aset_ne _ _ _ _ hne]
      exact hcx

def oldC1 : Client := ⟨⟨1, .opened⟩, freshClientState "#111111" 0, some "R"⟩

def peerC1 : Client := ⟨⟨2, .opened⟩, freshClientState "#222222" 0, some "R"⟩

def stC1 : Server := ⟨[("A", oldC1), ("B", peerC1)], [("R", ⟨"R", ["A", "B"], []⟩)]⟩

/-- Witness for C1: client A reconnects while in room R with peer B. -/
theorem session_resumption_witness :
    Output.terminate oldC1.ws.id ∈ (admitConnection stC1 "A" ⟨3, .opened⟩ "#333333" 9).2
    ∧ alookup (admitConnection stC1 "A" ⟨3, .opened⟩ "#333333" 9).1.clients "A"
        = some ⟨⟨3, .opened⟩, freshClientState "#333333" 9, some "R"⟩
    ∧ "A" ∈ membersOfD (admitConnection stC1 "A" ⟨3, .opened⟩ "#333333" 9).1.rooms "R"
    ∧ ∀ x cx, x ∈ membersOfD (admitConnection stC1 "A" ⟨3, .opened⟩ "#333333" 9).1.rooms "R" →
        x ≠ "A" → alookup stC1.clients x = some cx → cx.ws.ready = .opened →
        Output.send cx.ws.id (roomUserCountMsg "R"
            (membersOfD (admitConnection stC1 "A" ⟨3, .opened⟩ "#333333" 9).1.rooms "R").length)
          ∈ (admitConnection stC1 "A" ⟨3, .opened⟩ "#333333" 9).2 :=
  session_resumption stC1 "A" ⟨3, .opened⟩ "#333333" 9 oldC1 "R" rfl rfl
    (by decide) (by decide)

/-- The join frame `{ type: "join", roomId: R }`. -/
def joinMsgFor (R : String) : Json :=
  .obj [("type", .str "join"), ("roomId", .str R)]

theorem updateLastActive_rooms (st : Server) (cid : String) (now : Nat) :
    (updateLastActive st cid now).rooms = st.rooms := by
  cases h : alookup st.clients cid <;> simp [updateLastActive, h]

/-- C5 (amended): when a session that is already in room R — and is not
its sole member — processes a second `join` naming R, the room's
membership (as a set) and its history are exactly as before, the
`roomHistory` frame is resent to the joiner (when its transport is
OPEN), and `roomUserCount` is broadcast to every member with an OPEN
transport.  (When the joiner is the sole member the room is deleted and
recreated, clearing the history: see the counterexample.) -/
theorem rejoin_same_room_keeps_history_with_peer (st : Server) (cid R : String)
    (now : Nat) (c : Client) (room : Room) (d : String)
    (hc : alookup st.clients cid = some c) (hcr : c.roomId = some R)
    (hR : R ≠ "") (hcid : cid ≠ "")
    (hroom : alookup st.rooms R = some room) (hmem : cid ∈ room.clients)
    (hd : d ∈ room.clients) (hdne : d ≠ cid) :
    (∀ x, x ∈ membersOfD (handleMessage st cid (Frame.valid (joinMsgFor R)) now).1.rooms R
        ↔ x ∈ membersOfD st.rooms R)
    ∧ historyOfD (handleMessage st cid (Frame.valid (joinMsgFor R)) now).1.rooms R
        = historyOfD st.rooms R
    ∧ (c.ws.ready = .opened →
        Output.send c.ws.id (roomHistoryMsg R (historyOfD st.rooms R))
          ∈ (handleMessage st cid (Frame.valid (joinMsgFor R)) now).2)
    ∧ ∀ x cx, x ∈ membersOfD (handleMessage st cid (Frame.valid (joinMsgFor R)) now).1.rooms R →
        alookup st.clients x = some cx → cx.ws.ready = .opened →
        Output.send cx.ws.id (roomUserCountMsg R
            (membersOfD (handleMessage st cid (Frame.valid (joinMsgFor R)) now).1.rooms R).length)
          ∈ (handleMessage st cid (Frame.valid (joinMsgFor R)) now).2 := by
  have hjtype : (joinMsgFor R).isType "join" = true := by
    simp [joinMsgFor, Json.isType, Json.getField, lookupField]
  have hjr : joinRoomIdOf (joinMsgFor R) = some R := by
    simp [joinMsgFor, joinRoomIdOf, Json.getField, lookupField, hR]
  have hcs_ne : room.clients.filter (fun x => x ≠ cid) ≠ [] :=
    List.ne_nil_of_mem (List.mem_filter.mpr ⟨hd, by simp [hdne]⟩)
  have hremove := removeClientFromRoom_member_kept st.rooms R cid room hR hcid hroom hmem hcs_ne
  have hlook₁ : alookup (aset st.rooms R { room with clients := room.clients.filter (fun x => x ≠ cid) }) R
      = some { room with clients := room.clients.filter (fun x => x ≠ cid) } :=
    alookup_aset_self _ _ _
  have hadd := addClientToRoom_existing
    (aset st.rooms R { room with clients := room.clients.filter (fun x => x ≠ cid) }) R cid
    { room with clients := room.clients.filter (fun x => x ≠ cid) } hR hcid hlook₁
  have hcidcs : cid ∉ room.clients.filter (fun x => x ≠ cid) := by
    simp [List.mem_filter]
  have haddkey : addClientKey (room.clients.filter (fun x => x ≠ cid)) cid
      = room.clients.filter (fun x => x ≠ cid) ++ [cid] := by
    simp [addClientKey, hcidcs]
  have hlook₂ : alookup (aset (aset st.rooms R { room with clients := room.clients.filter (fun x => x ≠ cid) }) R
        { room with clients := addClientKey (room.clients.filter (fun x => x ≠ cid)) cid }) R
      = some { room with clients := addClientKey (room.clients.filter (fun x => x ≠ cid)) cid } :=
    alookup_aset_self _ _ _
  have heq : handleMessage st cid (Frame.valid (joinMsgFor R)) now
      = (updateLastActive
            ⟨aset st.clients cid { c with roomId := some R },
             aset (aset st.rooms R { room with clients := room.clients.filter (fun x => x ≠ cid) }) R
               { room with clients := addClientKey (room.clients.filter (fun x => x ≠ cid)) cid }⟩
            cid now,
         sendRoomHistory
            ⟨aset st.clients cid { c with roomId := some R },
             aset (aset st.rooms R { room with clients := room.clients.filter (fun x => x ≠ cid) }) R
               { room with clients := addClientKey (room.clients.filter (fun x => x ≠ cid)) cid }⟩
            cid R
          ++ broadcastRoomUserCount
            ⟨aset st.clients cid { c with roomId := some R },
             aset (aset st.rooms R { room with clients := room.clients.filter (fun x => x ≠ cid) }) R
               { room with clients := addClientKey (room.clients.filter (fun x => x ≠ cid)) cid }⟩
            R) := by
    simp only [handleMessage, hc]
    rw [if_pos hjtype]
    simp only [hjr, processJoin, hcr, hremove, processJoinAdd, hadd]
  have hmembers : membersOfD (handleMessage st cid (Frame.valid (joinMsgFor R)) now).1.rooms R
      = room.clients.filter (fun x => x ≠ cid) ++ [cid] := by
    rw [heq]
    simp only [updateLastActive_rooms]
    rw [membersOfD, hlook₂]
    simpa using haddkey
  have hmemiff : ∀ x, x ∈ membersOfD (handleMessage st cid (Frame.valid (joinMsgFor R)) now).1.rooms R
      ↔ x ∈ membersOfD st.rooms R := by
    intro x
    rw [hmembers, membersOfD, hroom]
    constructor
    · intro hx
      rcases List.mem_append.mp hx with h | h
      · exact (List.mem_filter.mp h).1
      · simp only [List.mem_singleton] at h
        rw [h]
        exact hmem
    · intro hx
      by_cases hxc : x = cid
      · apply List.mem_append_right
        simp [hxc]
      · apply List.mem_append_left
        exact List.mem_filter.mpr ⟨hx, by simp [hxc]⟩
  refine ⟨hmemiff, ?_, ?_, ?_⟩
  · rw [heq]
    simp only [updateLastActive_rooms]
    simp only [historyOfD, hlook₂, hroom]
  · intro hopen
    have hhist2 : historyOfD st.rooms R = room.history := by
      simp only [historyOfD, hroom]
    rw [heq, hhist2]
    apply List.mem_append_left
    have hguard : ¬ (cid = "" ∨ R = "") := by simp [hcid, hR]
    have hlookc : alookup (aset st.clients cid { c with roomId := some R }) cid
        = some { c with roomId := some R } := alookup_aset_self _ _ _
    have hhist : getRoomHistory
        (aset (aset st.rooms R { room with clients := room.clients.filter (fun x => x ≠ cid) }) R
          { room with clients := addClientKey (room.clients.filter (fun x => x ≠ cid)) cid }) R
        = .ok room.history := by
      simp only [getRoomHistory, hlook₂]
      rw [if_neg hR]
    simp only [sendRoomHistory, hlookc, hhist]
    rw [if_neg hguard]
    rw [if_neg
      (fun hne => hne hopen :
        ¬ (({ c with roomId := some R } : Client).ws.ready ≠ ReadyState.opened))]
    simp
  · intro x cx hx hcx hopen
    rw [hmembers] at hx
    rw [hmembers, heq]
    apply List.mem_append_right
    have hmembers₂ : membersOfD
        (aset (aset st.rooms R { room with clients := room.clients.filter (fun x => x ≠ cid) }) R
          { room with clients := addClientKey (room.clients.filter (fun x => x ≠ cid)) cid }) R
        = room.clients.filter (fun x => x ≠ cid) ++ [cid] := by
      rw [membersOfD, hlook₂]
      simpa using haddkey
    have hne₂ : room.clients.filter (fun x => x ≠ cid) ++ [cid] ≠ [] := by simp
    have hbrc : broadcastRoomUserCount
        ⟨aset st.clients cid { c with roomId := some R },
         aset (aset st.rooms R { room with clients := room.clients.filter (fun x => x ≠ cid) }) R
           { room with clients := addClientKey (room.clients.filter (fun x => x ≠ cid)) cid }⟩ R
        = countSends
            ⟨aset st.clients cid { c with roomId := some R },
             aset (aset st.rooms R { room with clients := room.clients.filter (fun x => x ≠ cid) }) R
               { room with clients := addClientKey (room.clients.filter (fun x => x ≠ cid)) cid }⟩
            (roomUserCountMsg R (room.clients.filter (fun x => x ≠ cid) ++ [cid]).length)
            (room.clients.filter (fun x => x ≠ cid) ++ [cid]) := by
      simp only [broadcastRoomUserCount, if_neg hR,
        getRoomUserCount_eq _ R _ hR hlook₂, getClientsInRoom_eq _ R hR, hmembers₂,
        if_neg hne₂]
    rw [hbrc]
    by_cases hxc : x = cid
    · subst hxc
      rw [hc] at hcx
      have hcxc : c = cx := Option.some_injective _ hcx
      subst hcxc
      exact mem_countSends _ _ _ x { c with roomId := some R } hx
        (alookup_aset_self _ _ _) hopen
    · exact mem_countSends _ _ _ x cx hx
        (by rw [alookup_aset_ne _ _ _ _ hxc]; exact hcx) hopen

def clW5A : Client := ⟨⟨1, .opened⟩, freshClientState "#0000AA" 0, some "R"⟩

def clW5B : Client := ⟨⟨2, .opened⟩, freshClientState "#0000BB" 0, some "R"⟩

def roomW5 : Room := ⟨"R", ["A", "B"], [chatC5]⟩

def stW5 : Server := ⟨[("A", clW5A), ("B", clW5B)], [("R", roomW5)]⟩

/-- Witness for the amended C5: A rejoins room R while B is also a
member; membership and history are preserved and both frames go out. -/
theorem rejoin_same_room_keeps_history_with_peer_witness :
    (∀ x, x ∈ membersOfD (handleMessage stW5 "A" (Frame.valid (joinMsgFor "R")) 9).1.rooms "R"
        ↔ x ∈ membersOfD stW5.rooms "R")
    ∧ historyOfD (handleMessage stW5 "A" (Frame.valid (joinMsgFor "R")) 9).1.rooms "R"
        = historyOfD stW5.rooms "R"
    ∧ (clW5A.ws.ready = .opened →
        Output.send clW5A.ws.id (roomHistoryMsg "R" (historyOfD stW5.rooms "R"))
          ∈ (handleMessage stW5 "A" (Frame.valid (joinMsgFor "R")) 9).2)
    ∧ ∀ x cx, x ∈ membersOfD (handleMessage stW5 "A" (Frame.valid (joinMsgFor "R")) 9).1.rooms "R" →
        alookup stW5.clients x = some cx → cx.ws.ready = .opened →
        Output.send cx.ws.id (roomUserCountMsg "R"
            (membersOfD (handleMessage stW5 "A" (Frame.valid (joinMsgFor "R")) 9).1.rooms "R").length)
          ∈ (handleMessage stW5 "A" (Frame.valid (joinMsgFor "R")) 9).2 :=
  rejoin_same_room_keeps_history_with_peer stW5 "A" "R" 9 clW5A roomW5 "B"
    rfl rfl (by decide) (by decide) rfl (by decide) (by decide) (by decide)

theorem sendsToMembers_chr (st : Server) (sid : String) (p : Json) (cs : List String) :
    ∀ o ∈ sendsToMembers st sid p cs,
      ∃ cid cl, cid ∈ cs ∧ cid ≠ sid ∧ alookup st.clients cid = some cl
        ∧ cl.ws.ready = .opened ∧ o = Output.send cl.ws.id p := by
  induction cs with
  | nil =>
      intro o ho
      simp [sendsToMembers] at ho
  | cons c₀ rest ih =>
      intro o ho
      simp only [sendsToMembers] at ho
      rcases List.mem_append.mp ho with h | h
      · by_cases hne : c₀ ≠ sid
        · rw [if_pos hne] at h
          cases hlook : alookup st.clients c₀ with
          | none =>
              simp only [hlook] at h
              cases h
          | some cl =>
              simp only [hlook] at h
              by_cases hopen : cl.ws.ready = .opened
              · rw [if_pos hopen] at h
                simp only [List.mem_singleton] at h
                exact ⟨c₀, cl, List.mem_cons_self _ _, hne, hlook, hopen, h⟩
              · rw [if_neg hopen] at h
                cases h
        · rw [if_neg hne] at h
          cases h
      · obtain ⟨cid, cl, h1, h2, h3, h4, h5⟩ := ih o h
        exact ⟨cid, cl, List.mem_cons_of_mem _ h1, h2, h3, h4, h5⟩

theorem broadcastRooms_chr (st : Server) (sid : String) (p : Json) :
    ∀ rs : List String, (∀ r ∈ rs, r ≠ "") →
      ∀ o ∈ broadcastRooms st sid p rs,
        ∃ r cid cl, r ∈ rs ∧ cid ∈ membersOfD st.rooms r ∧ cid ≠ sid
          ∧ alookup st.clients cid = some cl ∧ cl.ws.ready = .opened
          ∧ o = Output.send cl.ws.id p := by
  intro rs
  induction rs with
  | nil =>
      intro _ o ho
      simp [broadcastRooms] at ho
  | cons r₀ rest ih =>
      intro hne o ho
      have hr₀ : r₀ ≠ "" := hne r₀ (List.mem_cons_self _ _)
      cases hlook : alookup st.rooms r₀ with
      | none =>
          simp only [broadcastRooms, getRoomById, if_neg hr₀, hlook] at ho
          obtain ⟨r, cid, cl, h1, h2, h3, h4, h5, h6⟩ :=
            ih (fun r hr => hne r (List.mem_cons_of_mem _ hr)) o ho
          exact ⟨r, cid, cl, List.mem_cons_of_mem _ h1, h2, h3, h4, h5, h6⟩
      | some room₀ =>
          simp only [broadcastRooms, getRoomById, if_neg hr₀, hlook,
            getClientsInRoom_eq st.rooms r₀ hr₀] at ho
          rcases List.mem_append.mp ho with h | h
          · obtain ⟨cid, cl, h1, h2, h3, h4, h5⟩ := sendsToMembers_chr st sid p _ o h
            refine ⟨r₀, cid, cl, List.mem_cons_self _ _, ?_, h2, h3, h4, h5⟩
            rw [membersOfD, hlook] at h1 ⊢
            exact h1
          · obtain ⟨r, cid, cl, h1, h2, h3, h4, h5, h6⟩ :=
              ih (fun r hr => hne r (List.mem_cons_of_mem _ hr)) o h
            exact ⟨r, cid, cl, List.mem_cons_of_mem _ h1, h2, h3, h4, h5, h6⟩

theorem broadcastRooms_mem (st : Server) (sid : String) (p : Json) :
    ∀ rs : List String, (∀ r ∈ rs, r ≠ "") →
      ∀ r ∈ rs, ∀ (cid : String) (cl : Client), cid ∈ membersOfD st.rooms r → cid ≠ sid →
        alookup st.clients cid = some cl → cl.ws.ready = .opened →
        Output.send cl.ws.id p ∈ broadcastRooms st sid p rs := by
  intro rs
  induction rs with
  | nil =>
      intro _ r hr
      cases hr
  | cons r₀ rest ih =>
      intro hne r hr cid cl hmem hcs hlookc hopen
      have hr₀ : r₀ ≠ "" := hne r₀ (List.mem_cons_self _ _)
      rcases List.mem_cons.mp hr with hreq | hrrest
      · subst hreq
        cases hlook : alookup st.rooms r with
        | none =>
            rw [membersOfD, hlook] at hmem
            cases hmem
        | some room₀ =>
            simp only [broadcastRooms, getRoomById, if_neg hr₀, hlook,
              getClientsInRoom_eq st.rooms r hr₀]
            apply List.mem_append_left
            rw [membersOfD, hlook] at hmem
            exact mem_sendsToMembers st sid p _ cid cl
              (by rw [membersOfD, hlook]; exact hmem) hcs hlookc hopen
      · cases hlook : alookup st.rooms r₀ with
        | none =>
            simp only [broadcastRooms, getRoomById, if_neg hr₀, hlook]
            exact ih (fun x hx => hne x (List.mem_cons_of_mem _ hx)) r hrrest cid cl
              hmem hcs hlookc hopen
        | some room₀ =>
            simp only [broadcastRooms, getRoomById, if_neg hr₀, hlook,
              getClientsInRoom_eq st.rooms r₀ hr₀]
            apply List.mem_append_right
            exact ih (fun x hx => hne x (List.mem_cons_of_mem _ hx)) r hrrest cid cl
              hmem hcs hlookc hopen

/-- C9 (amended): the third revision's `broadcastMessage` delivers, for
a non-join event `m`, the payload `m` stamped with
`sender: { id, color }` and `timestamp` (not the original event
verbatim), and delivers it exactly to the members of the sender's
room(s) other than the sender whose session transport is OPEN. -/
theorem broadcastMessage_stamped_fanout (st : Server) (senderId : String) (m : Json)
    (ts : Nat) (sender : Client) (rs : List String)
    (hs : alookup st.clients senderId = some sender)
    (hrooms : getRoomsByClientId st.rooms senderId = .ok rs) (hrs : rs ≠ [])
    (hwf : ∀ q ∈ st.rooms, q.1 ≠ "") :
    (∀ o ∈ broadcastMessage st senderId m ts,
      ∃ r cid cl, r ∈ rs ∧ cid ∈ membersOfD st.rooms r ∧ cid ≠ senderId
        ∧ alookup st.clients cid = some cl ∧ cl.ws.ready = .opened
        ∧ o = Output.send cl.ws.id (stampMessage m senderId sender.state.color ts))
    ∧ ∀ r ∈ rs, ∀ (cid : String) (cl : Client), cid ∈ membersOfD st.rooms r →
        cid ≠ senderId → alookup st.clients cid = some cl → cl.ws.ready = .opened →
        Output.send cl.ws.id (stampMessage m senderId sender.state.color ts)
          ∈ broadcastMessage st senderId m ts := by
  have hsid : senderId ≠ "" := by
    intro h
    rw [h] at hrooms
    simp [getRoomsByClientId] at hrooms
  have hrs_eq : rs = st.rooms.filterMap
      (fun q => if senderId ∈ q.2.clients then some q.1 else none) := by
    simp only [getRoomsByClientId, if_neg hsid] at hrooms
    exact (Except.ok.inj hrooms).symm
  have hrne : ∀ r ∈ rs, r ≠ "" := by
    intro r hr
    rw [hrs_eq] at hr
    obtain ⟨q, hq, hqr⟩ := List.mem_filterMap.mp hr
    by_cases hmemq : senderId ∈ q.2.clients
    · rw [if_pos hmemq] at hqr
      have hq1 := Option.some.inj hqr
      subst hq1
      exact hwf q hq
    · rw [if_neg hmemq] at hqr
      cases hqr
  have hout : broadcastMessage st senderId m ts
      = broadcastRooms st senderId (stampMessage m senderId sender.state.color ts) rs := by
    simp only [broadcastMessage, hs, hrooms, if_neg hrs]
  constructor
  · intro o ho
    rw [hout] at ho
    exact broadcastRooms_chr st senderId _ rs hrne o ho
  · intro r hr cid cl hmem hcs hlookc hopen
    rw [hout]
    exact broadcastRooms_mem st senderId _ rs hrne r hr cid cl hmem hcs hlookc hopen

/-- Witness for the amended C9 at a concrete two-member room. -/
theorem broadcastMessage_stamped_fanout_witness :
    (∀ o ∈ broadcastMessage stC9 "A" mC9 7,
      ∃ r cid cl, r ∈ ["R"] ∧ cid ∈ membersOfD stC9.rooms r ∧ cid ≠ "A"
        ∧ alookup stC9.clients cid = some cl ∧ cl.ws.ready = .opened
        ∧ o = Output.send cl.ws.id (stampMessage mC9 "A" clAC9.state.color 7))
    ∧ ∀ r ∈ ["R"], ∀ (cid : String) (cl : Client), cid ∈ membersOfD stC9.rooms r →
        cid ≠ "A" → alookup stC9.clients cid = some cl → cl.ws.ready = .opened →
        Output.send cl.ws.id (stampMessage mC9 "A" clAC9.state.color 7)
          ∈ broadcastMessage stC9 "A" mC9 7 :=
  broadcastMessage_stamped_fanout stC9 "A" mC9 7 clAC9 ["R"] rfl rfl
    (by decide) (by decide)

/-! ### Claim C8: the heartbeat scheduler -/

/-- A session is stale when `now - lastActive` exceeds
`heartbeatIntervalTime + heartbeatTimeoutTime` (40 000 ms). -/
def heartbeatStale (now : Nat) (cl : Client) : Prop :=
  heartbeatIntervalTime + heartbeatTimeoutTime < now - cl.state.lastActive

instance (now : Nat) (cl : Client) : Decidable (heartbeatStale now cl) :=
  inferInstanceAs (Decidable (_ < _))

/-- Directory entries carry a non-empty client id and, when joined, a
non-empty room id (both always hold for admitted sessions). -/
def WFentries (l : List (String × Client)) : Prop :=
  ∀ p ∈ l, p.1 ≠ "" ∧ ∀ r, p.2.roomId = some r → r ≠ ""

theorem scanClients_cons_fst (now : Nat) (cid : String) (cl : Client)
    (rest : List (String × Client)) :
    (scanClients now ((cid, cl) :: rest)).1
      = if heartbeatIntervalTime + heartbeatTimeoutTime < now - cl.state.lastActive
        then cid :: (scanClients now rest).1 else (scanClients now rest).1 := by
  by_cases h : heartbeatIntervalTime + heartbeatTimeoutTime < now - cl.state.lastActive
  · simp [scanClients, h]
  · by_cases h2 : cl.ws.ready = .opened <;> simp [scanClients, h, h2]

theorem scanClients_cons_snd (now : Nat) (cid : String) (cl : Client)
    (rest : List (String × Client)) :
    (scanClients now ((cid, cl) :: rest)).2
      = if heartbeatIntervalTime + heartbeatTimeoutTime < now - cl.state.lastActive
        then (scanClients now rest).2
        else if cl.ws.ready = .opened then Output.ping cl.ws.id :: (scanClients now rest).2
        else (scanClients now rest).2 := by
  by_cases h : heartbeatIntervalTime + heartbeatTimeoutTime < now - cl.state.lastActive
  · simp [scanClients, h]
  · by_cases h2 : cl.ws.ready = .opened <;> simp [scanClients, h, h2]

theorem mem_marked_of_stale (now : Nat) :
    ∀ (l : List (String × Client)) (cid : String) (cl : Client), (cid, cl) ∈ l →
      heartbeatStale now cl → cid ∈ (scanClients now l).1 := by
  intro l
  induction l with
  | nil =>
      intro cid cl h
      cases h
  | cons p rest ih =>
      intro cid cl h hst
      obtain ⟨k₀, c₀⟩ := p
      rw [scanClients_cons_fst]
      rcases List.mem_cons.mp h with h1 | h1
      · injection h1 with e1 e2
        subst e1
        subst e2
        have hst' : heartbeatIntervalTime + heartbeatTimeoutTime < now - cl.state.lastActive := hst
        rw [if_pos hst']
        exact List.mem_cons_self _ _
      · by_cases h0 : heartbeatIntervalTime + heartbeatTimeoutTime < now - c₀.state.lastActive
        · rw [if_pos h0]
          exact List.mem_cons_of_mem _ (ih cid cl h1 hst)
        · rw [if_neg h0]
          exact ih cid cl h1 hst

theorem ping_of_fresh (now : Nat) :
    ∀ (l : List (String × Client)) (cid : String) (cl : Client), (cid, cl) ∈ l →
      ¬ heartbeatStale now cl → cl.ws.ready = .opened →
      Output.ping cl.ws.id ∈ (scanClients now l).2 := by
  intro l
  induction l with
  | nil =>
      intro cid cl h
      cases h
  | cons p rest ih =>
      intro cid cl h hst hopen
      obtain ⟨k₀, c₀⟩ := p
      rw [scanClients_cons_snd]
      rcases List.mem_cons.mp h with h1 | h1
      · injection h1 with e1 e2
        subst e1
        subst e2
        have hst' : ¬ heartbeatIntervalTime + heartbeatTimeoutTime < now - cl.state.lastActive := hst
        rw [if_neg hst', if_pos hopen]
        exact List.mem_cons_self _ _
      · by_cases h0 : heartbeatIntervalTime + heartbeatTimeoutTime < now - c₀.state.lastActive
        · rw [if_pos h0]
          exact ih cid cl h1 hst hopen
        · by_cases h2 : c₀.ws.ready = .opened
          · rw [if_neg h0, if_pos h2]
            exact List.mem_cons_of_mem _ (ih cid cl h1 hst hopen)
          · rw [if_neg h0, if_neg h2]
            exact ih cid cl h1 hst hopen

theorem stale_of_mem_marked (now : Nat) :
    ∀ (l : List (String × Client)) (cid : String), cid ∈ (scanClients now l).1 →
      ∃ cl, (cid, cl) ∈ l ∧ heartbeatStale now cl := by
  intro l
  induction l with
  | nil =>
      intro cid h
      simp [scanClients] at h
  | cons p rest ih =>
      intro cid h
      obtain ⟨k₀, c₀⟩ := p
      rw [scanClients_cons_fst] at h
      by_cases h0 : heartbeatIntervalTime + heartbeatTimeoutTime < now - c₀.state.lastActive
      · rw [if_pos h0] at h
        rcases List.mem_cons.mp h with h1 | h1
        · subst h1
          exact ⟨c₀, List.mem_cons_self _ _, h0⟩
        · obtain ⟨cl, hmem, hst⟩ := ih cid h1
          exact ⟨cl, List.mem_cons_of_mem _ hmem, hst⟩
      · rw [if_neg h0] at h
        obtain ⟨cl, hmem, hst⟩ := ih cid h
        exact ⟨cl, List.mem_cons_of_mem _ hmem, hst⟩

theorem handleDisconnection_clients_eq (st : Server) (cid : String)
    (hwf : WFentries st.clients) :
    (handleDisconnection st cid).1.clients = aerase st.clients cid := by
  cases hlook : alookup st.clients cid with
  | none => simp [handleDisconnection, hlook, aerase_of_alookup_none _ _ hlook]
  | some cl =>
      have hfacts := hwf (cid, cl) (alookup_mem _ _ _ hlook)
      cases hrid : cl.roomId with
      | none => simp [handleDisconnection, hlook, hrid]
      | some r =>
          have hr : r ≠ "" := hfacts.2 r hrid
          obtain ⟨rm', hrm⟩ := removeClientFromRoom_ok st.rooms r cid hr hfacts.1
          simp [handleDisconnection, hlook, hrid, hrm]

theorem WFentries_aerase (l : List (String × Client)) (k : String)
    (h : WFentries l) : WFentries (aerase l k) :=
  fun p hp => h p (mem_aerase _ _ _ hp)

theorem handleDisconnection_WF (st : Server) (cid : String)
    (hwf : WFentries st.clients) : WFentries (handleDisconnection st cid).1.clients := by
  rw [handleDisconnection_clients_eq st cid hwf]
  exact WFentries_aerase _ _ hwf

theorem handleDisconnection_rooms_mono (st : Server) (cid x r' : String)
    (hx : x ∈ membersOfD (handleDisconnection st cid).1.rooms r') :
    x ∈ membersOfD st.rooms r' := by
  cases hlook : alookup st.clients cid with
  | none => simpa [handleDisconnection, hlook] using hx
  | some cl =>
      cases hrid : cl.roomId with
      | none => simpa [handleDisconnection, hlook, hrid] using hx
      | some r =>
          cases hrm : removeClientFromRoom st.rooms r cid with
          | error e => simpa [handleDisconnection, hlook, hrid, hrm] using hx
          | ok rms =>
              simp only [handleDisconnection, hlook, hrid, hrm] at hx
              exact mem_membersOfD_after_remove st.rooms r cid rms hrm x r' hx

theorem handleDisconnection_removed (st : Server) (cid : String) (cl : Client) (r : String)
    (hlook : alookup st.clients cid = some cl) (hrid : cl.roomId = some r)
    (hr : r ≠ "") (hcid : cid ≠ "") :
    cid ∉ membersOfD (handleDisconnection st cid).1.rooms r := by
  obtain ⟨rms, hrm⟩ := removeClientFromRoom_ok st.rooms r cid hr hcid
  simp only [handleDisconnection, hlook, hrid, hrm]
  exact not_mem_after_remove st.rooms r cid rms hrm

theorem evictAll_clients (ms : List String) :
    ∀ st : Server, WFentries st.clients → ∀ cid,
      alookup (evictAll st ms).1.clients cid
        = if cid ∈ ms then none else alookup st.clients cid := by
  induction ms with
  | nil =>
      intro st _ cid
      simp [evictAll]
  | cons m₀ rest ih =>
      intro st hwf cid
      have hstep : (evictAll st (m₀ :: rest)).1 = (evictAll (handleDisconnection st m₀).1 rest).1 := by
        simp [evictAll]
      rw [hstep, ih _ (handleDisconnection_WF st m₀ hwf) cid,
        handleDisconnection_clients_eq st m₀ hwf]
      by_cases h1 : cid ∈ rest
      · simp [h1]
      · by_cases h2 : cid = m₀
        · subst h2
          simp [h1, alookup_aerase_self]
        · simp [h1, h2, alookup_aerase_ne _ _ _ h2]

theorem evictAll_rooms_mono (ms : List String) :
    ∀ (st : Server) (x r' : String),
      x ∈ membersOfD (evictAll st ms).1.rooms r' → x ∈ membersOfD st.rooms r' := by
  induction ms with
  | nil =>
      intro st x r' hx
      simpa [evictAll] using hx
  | cons m₀ rest ih =>
      intro st x r' hx
      have hstep : (evictAll st (m₀ :: rest)).1 = (evictAll (handleDisconnection st m₀).1 rest).1 := by
        simp [evictAll]
      rw [hstep] at hx
      exact handleDisconnection_rooms_mono st m₀ x r' (ih _ x r' hx)

theorem evictAll_removed (ms : List String) :
    ∀ st : Server, WFentries st.clients → ∀ cid ∈ ms, ∀ (cl : Client) (r : String),
      alookup st.clients cid = some cl → cl.roomId = some r →
      cid ∉ membersOfD (evictAll st ms).1.rooms r := by
  induction ms with
  | nil =>
      intro st _ cid hcid
      cases hcid
  | cons m₀ rest ih =>
      intro st hwf cid hcid cl r hlook hrid
      have hfacts := hwf (cid, cl) (alookup_mem _ _ _ hlook)
      have hstep : (evictAll st (m₀ :: rest)).1 = (evictAll (handleDisconnection st m₀).1 rest).1 := by
        simp [evictAll]
      rw [hstep]
      rcases List.mem_cons.mp hcid with h1 | h1
      · subst h1
        have hrem := handleDisconnection_removed st cid cl r hlook hrid
          (hfacts.2 r hrid) hfacts.1
        intro hmem
        exact hrem (evictAll_rooms_mono rest _ cid r hmem)
      · by_cases h2 : cid = m₀
        · subst h2
          have hrem := handleDisconnection_removed st cid cl r hlook hrid
            (hfacts.2 r hrid) hfacts.1
          intro hmem
          exact hrem (evictAll_rooms_mono rest _ cid r hmem)
        · have hlook' : alookup (handleDisconnection st m₀).1.clients cid = some cl := by
            rw [handleDisconnection_clients_eq st m₀ hwf, alookup_aerase_ne _ _ _ h2]
            exact hlook
          exact ih _ (handleDisconnection_WF st m₀ hwf) cid h1 cl r hlook' hrid

/-- C8: on a heartbeat tick, exactly the sessions whose `lastActive`
lies more than 40 000 ms in the past are evicted through the normal
drop path (removed from the directory and from their room), while every
other session is kept — never evicted within the threshold — and is
sent a transport-level ping whenever its transport is OPEN. -/
theorem heartbeat_evicts_exactly_stale (st : Server) (now : Nat)
    (hnd : (st.clients.map Prod.fst).Nodup) (hwf : WFentries st.clients) :
    ∀ cid cl, alookup st.clients cid = some cl →
      (heartbeatStale now cl →
        alookup (checkHeartbeats st now).1.clients cid = none
        ∧ ∀ r, cl.roomId = some r →
            cid ∉ membersOfD (checkHeartbeats st now).1.rooms r)
      ∧ (¬ heartbeatStale now cl →
        alookup (checkHeartbeats st now).1.clients cid = some cl
        ∧ (cl.ws.ready = .opened →
            Output.ping cl.ws.id ∈ (checkHeartbeats st now).2)) := by
  intro cid cl hlook
  have hmem := alookup_mem _ _ _ hlook
  have h1 : (checkHeartbeats st now).1 = (evictAll st (scanClients now st.clients).1).1 := rfl
  have h2 : (checkHeartbeats st now).2
      = (scanClients now st.clients).2 ++ (evictAll st (scanClients now st.clients).1).2 := rfl
  constructor
  · intro hst
    have hin : cid ∈ (scanClients now st.clients).1 :=
      mem_marked_of_stale now st.clients cid cl hmem hst
    constructor
    · rw [h1, evictAll_clients _ st hwf cid, if_pos hin]
    · intro r hrid
      rw [h1]
      exact evictAll_removed _ st hwf cid hin cl r hlook hrid
  · intro hst
    have hnotin : cid ∉ (scanClients now st.clients).1 := by
      intro hin
      obtain ⟨cl', hmem', hst'⟩ := stale_of_mem_marked now st.clients cid hin
      have heqc : alookup st.clients cid = some cl' :=
        alookup_eq_of_mem_nodup st.clients cid cl' hnd hmem'
      rw [hlook] at heqc
      have : cl = cl' := Option.some.inj heqc
      subst this
      exact hst hst'
    constructor
    · rw [h1, evictAll_clients _ st hwf cid, if_neg hnotin]
      exact hlook
    · intro hopen
      rw [h2]
      exact List.mem_append_left _ (ping_of_fresh now st.clients cid cl hmem hst hopen)

def staleC8 : Client := ⟨⟨1, .opened⟩, freshClientState "#AA0000" 0, some "R"⟩

def freshC8 : Client := ⟨⟨2, .opened⟩, freshClientState "#00AA00" 49000, some "R"⟩

def stC8 : Server := ⟨[("X", staleC8), ("Y", freshC8)], [("R", ⟨"R", ["X", "Y"], []⟩)]⟩

theorem stC8_wf : WFentries stC8.clients := by
  intro p hp
  simp only [stC8] at hp
  rcases List.mem_cons.mp hp with h | h
  · subst h
    refine ⟨by decide, fun r hr => ?_⟩
    have hre : r = "R" := (Option.some.inj hr).symm
    subst hre
    decide
  · rcases List.mem_cons.mp h with h2 | h2
    · subst h2
      refine ⟨by decide, fun r hr => ?_⟩
      have hre : r = "R" := (Option.some.inj hr).symm
      subst hre
      decide
    · cases h2

/-- Witness for C8: at `now = 50000`, client X (`lastActive = 0`) is
past the 40 000 ms threshold and client Y (`lastActive = 49000`) is
not. -/
theorem heartbeat_evicts_exactly_stale_witness :
    ((heartbeatStale 50000 staleC8 →
        alookup (checkHeartbeats stC8 50000).1.clients "X" = none
        ∧ ∀ r, staleC8.roomId = some r →
            "X" ∉ membersOfD (checkHeartbeats stC8 50000).1.rooms r)
      ∧ (¬ heartbeatStale 50000 staleC8 →
        alookup (checkHeartbeats stC8 50000).1.clients "X" = some staleC8
        ∧ (staleC8.ws.ready = .opened →
            Output.ping staleC8.ws.id ∈ (checkHeartbeats stC8 50000).2))) :=
  heartbeat_evicts_exactly_stale stC8 50000 (by decide) stC8_wf "X" staleC8 rfl
